import Mathlib

/-!
A verification development for the `transformerenforcer` instrumentation layer.

The Python source instruments a HuggingFace-style autoregressive generation
loop.  We give a shallow embedding of its data model and operations:

* tensors of token ids and of scores become lists of lists (`List (List Nat)`,
  `Matrix` below); a score entry is an exact rational (`ℚ`);
* the per-step softmax probabilities are real numbers obtained with `Real.exp`;
* fallible tensor operations (`torch.concat` of an empty list, out-of-range or
  non-broadcastable advanced indexing, `output.sequences[0]` on an empty batch)
  return `Option`/`Except`, where `none` / `.error` models a raised Python
  exception;
* the mutable `model._get_logits_warper` attribute becomes an explicit
  `Model` state record threaded through the operations;
* `model.generate` itself is an external collaborator and is passed in as a
  function `gen`; it returns either a raised exception or the generation
  output together with the list of score tensors the installed
  `LogitsSaverWarper` recorded (one per decoding step).
-/

set_option autoImplicit false

namespace TransformerEnforcer

/-- A 2-d score tensor: a list of rows, each row a list of rational scores. -/
abbrev Matrix : Type := List (List ℚ)

/-- The type of `transformers_filter_allowed_tokens`:
`(batch_id, sent) ↦ allowed token ids`. -/
abbrev FilterFn : Type := Nat → List Nat → List Nat

/-- Python's `xs[-k:]` slice on a list.  For `k = 0` the slice `xs[-0:]` is
`xs[0:]`, i.e. the whole list; for `k > 0` it is the last `min k n` elements. -/
def pyTailSlice {α : Type} (xs : List α) (k : Nat) : List α :=
  if k = 0 then xs else xs.drop (xs.length - k)

/-- Python's `list.insert(i, a)`: insert at index `i`, clamping to the end. -/
def pyInsert {α : Type} (xs : List α) (i : Nat) (a : α) : List α :=
  xs.take i ++ a :: xs.drop i

/-- `torch.concat` on a list of 2-d tensors along dim 0.  Raises (= `none`) on
an empty tensor list, and when the concatenated rows disagree in width. -/
def torchConcat (ms : List Matrix) : Option Matrix :=
  if ms = [] then none
  else
    match ms.flatten with
    | [] => some []
    | r :: rest => if rest.all (fun x => x.length = r.length) then some (r :: rest) else none

/-- Map a fallible function over a list, failing if any element fails
(the `Option` effect of the torch operations used below). -/
def mapOption {α β : Type} (f : α → Option β) : List α → Option (List β)
  | [] => some []
  | x :: xs =>
    match f x, mapOption f xs with
    | some y, some ys => some (y :: ys)
    | _, _ => none

/-- Row-wise advanced indexing `probs[torch.arange(k), tokens]` restricted to
equal-length index tensors: pick `probs[i][tokens[i]]` for each row `i`.
Raises (= `none`) on an out-of-range token or a length mismatch. -/
def indexPairs : List (List ℝ) → List Nat → Option (List ℝ)
  | [], [] => some []
  | row :: ps, t :: ts =>
    match row.get? t, indexPairs ps ts with
    | some p, some l => some (p :: l)
    | _, _ => none
  | _, _ => none

/-- The torch advanced indexing `probs[torch.arange(probs.size 0), tokens]`,
including the broadcasting cases (either index tensor of size 1 is broadcast
against the other).  Anything else is a shape error (= `none`). -/
def torchIndexRows (probs : List (List ℝ)) (tokens : List Nat) : Option (List ℝ) :=
  if tokens.length = probs.length then
    indexPairs probs tokens
  else if tokens.length = 1 then
    match tokens with
    | [t] => mapOption (fun row => row.get? t) probs
    | _ => none
  else if probs.length = 1 then
    match probs with
    | [row] => mapOption (fun t => row.get? t) tokens
    | _ => none
  else none

/-- The sum `Σ_y exp y` over a row of scores, the softmax denominator. -/
noncomputable def expSum (s : List ℚ) : ℝ :=
  (s.map (fun y : ℚ => Real.exp (y : ℝ))).sum

/-- `torch.softmax(·, dim=1)` applied to one row of scores. -/
noncomputable def softmaxRow (s : List ℚ) : List ℝ :=
  s.map (fun x : ℚ => Real.exp (x : ℝ) / expSum s)

/-- `torch.softmax(scores_matrix, dim=1)`: row-wise softmax. -/
noncomputable def softmaxMatrix (m : Matrix) : List (List ℝ) :=
  m.map softmaxRow

/-- `torch.argmax(·)` on one row: the index of the first maximal entry.
Raises (= `none`) on an empty row (reduction over an empty dimension). -/
def argmaxIdx : List ℚ → Option Nat
  | [] => none
  | x :: xs =>
    match argmaxIdx xs with
    | none => some 0
    | some j => if x < xs.getD j 0 then some (j + 1) else some 0

/-- The Score Recorder (`LogitsSaverWarper`): its state is the ordered list of
recorded score tensors, one appended per invocation. -/
structure LogitsSaverWarper where
  scores : List Matrix
  deriving Repr, DecidableEq

/-- `LogitsSaverWarper.__init__`: a fresh recorder with an empty scores list. -/
def LogitsSaverWarper.mkFresh : LogitsSaverWarper := ⟨[]⟩

/-- `LogitsSaverWarper.__call__(input_ids, scores)`: appends a detached copy of
`scores` (value semantics: the appended list is an independent copy) and
returns the incoming `scores` tensor itself. -/
def LogitsSaverWarper.call (w : LogitsSaverWarper) (input_ids : List (List Nat))
    (scores : Matrix) : LogitsSaverWarper × Matrix :=
  let cpu_scores := scores
  ({ scores := w.scores ++ [cpu_scores] }, scores)

/-- One entry of the warper chain returned by `_get_logits_warper`. -/
inductive Proc where
  /-- a `LogitsSaverWarper` instance together with its state -/
  | saver (w : LogitsSaverWarper)
  /-- `PrefixConstrainedLogitsProcessor(filter_func, num_beams)` -/
  | constrainedProcessor (filterFunc : FilterFn) (numBeams : Nat)
  /-- any pre-existing warper of the host chain, identified by a tag -/
  | base (tag : Nat)

/-- A value of the model's `_get_logits_warper` attribute.  `original` is a
pre-existing bound method (abstract, identified by a tag); `patched` is the
closure installed by `replace_logits_warper`, which captured the attribute's
previous value and the filter function. -/
inductive Hook where
  | original (tag : Nat)
  | patched (old : Option Hook) (filterFunc : Option FilterFn)

/-- The mutable part of the host model that this layer touches:
its `_get_logits_warper` attribute (`none` = the attribute is `None`). -/
structure Model where
  get_logits_warper : Option Hook

/-- The body of the closure `new_logits_warper(generation_config)` installed by
`replace_logits_warper`, given the captured original resolution function
`old_warper` and the captured `filter_func`: calls the original, inserts a
fresh recorder at position 0 (the same fresh recorder is also bound to
`self.warper`), and, when a filter function was supplied, inserts
`PrefixConstrainedLogitsProcessor(filter_func, 1)` at position 1. -/
def new_logits_warper {Cfg : Type} (old_warper : Cfg → List Proc)
    (filter_func : Option FilterFn) (generation_config : Cfg) : List Proc :=
  let warpers := old_warper generation_config
  let w := Proc.saver LogitsSaverWarper.mkFresh
  let warpers := pyInsert warpers 0 w
  match filter_func with
  | some f => pyInsert warpers 1 (Proc.constrainedProcessor f 1)
  | none => warpers

/-- The Generation Session Manager (`LogitsSaverManager`): holds the recorder
bound during the session and the saved original `_get_logits_warper` value. -/
structure LogitsSaverManager where
  warper : Option LogitsSaverWarper
  old_warper : Option Hook

/-- `LogitsSaverManager.__init__`: both fields start as `None`. -/
def LogitsSaverManager.mkFresh : LogitsSaverManager := ⟨none, none⟩

/-- `replace_logits_warper(filter_func)`: saves the model's current
`_get_logits_warper` into `old_warper` and overwrites the attribute with the
patching closure (represented by `Hook.patched`, recording what it captured). -/
def LogitsSaverManager.replace_logits_warper (mgr : LogitsSaverManager)
    (model : Model) (filter_func : Option FilterFn) : LogitsSaverManager × Model :=
  let mgr1 := { mgr with old_warper := model.get_logits_warper }
  (mgr1, { model with get_logits_warper := some (Hook.patched model.get_logits_warper filter_func) })

/-- `unreplace_logits_warper()`: writes `old_warper` back into the model's
`_get_logits_warper` attribute (whatever `old_warper` currently holds). -/
def LogitsSaverManager.unreplace_logits_warper (mgr : LogitsSaverManager)
    (model : Model) : Model :=
  { model with get_logits_warper := mgr.old_warper }

/-- `LogitsSaverManager.get_generated_scores(token_sequence)`, with
`warper_scores` standing for `self.warper.scores`:
takes `token_sequence[-len(scores):]`, concatenates the recorded tensors,
softmaxes row-wise, and gathers the probability of each relevant token. -/
noncomputable def get_generated_scores (warper_scores : List Matrix)
    (token_sequence : List Nat) : Option (List ℝ) :=
  let relevant_tokens := pyTailSlice token_sequence warper_scores.length
  match torchConcat warper_scores with
  | none => none
  | some scores_matrix =>
    let probs := softmaxMatrix scores_matrix
    torchIndexRows probs relevant_tokens

/-- `LogitsSaverManager.get_leading_scores()`, with `warper_scores` standing
for `self.warper.scores`: concatenates the recorded tensors, softmaxes
row-wise, takes the per-row argmax of the raw scores, and gathers each argmax
token's probability. -/
noncomputable def get_leading_scores (warper_scores : List Matrix) :
    Option (List Nat × List ℝ) :=
  match torchConcat warper_scores with
  | none => none
  | some scores_matrix =>
    let probs := softmaxMatrix scores_matrix
    match mapOption argmaxIdx scores_matrix with
    | none => none
    | some best_tokens =>
      match torchIndexRows probs best_tokens with
      | none => none
      | some token_probs => some (best_tokens, token_probs)

/-- The kwargs of `generate_enforced` that the mode selector inspects.
`input_ids` is required (a 2-d tensor of token ids); the other three are
optional keys, `none` meaning the key is absent. -/
structure Kwargs where
  input_ids : List (List Nat)
  num_beams : Option Nat
  return_dict_in_generate : Option Bool
  output_scores : Option Bool

/-- The mode selector of `generate_enforced` (source lines 85–93):
`is_multi_inputs = input_ids.shape[0] > 1`,
`is_multi_beams = kwargs.get('num_beams', 1) > 1`,
`support_diagnostics = not (is_multi_inputs or is_multi_beams)`, and
`should_run_in_advanced_mode = return_dict_in_generate and output_scores and
support_diagnostics` (with Python truthiness of the two optional flags). -/
def should_run_in_advanced_mode (kwargs : Kwargs) : Bool :=
  let is_multi_inputs : Bool := decide (kwargs.input_ids.length > 1)
  let is_multi_beams : Bool := decide (kwargs.num_beams.getD 1 > 1)
  let support_diagnostics : Bool := !(is_multi_inputs || is_multi_beams)
  let return_dict_in_generate : Bool := kwargs.return_dict_in_generate.getD false
  let output_scores : Bool := kwargs.output_scores.getD false
  return_dict_in_generate && output_scores && support_diagnostics

/-- The dataframe-like dictionary of six parallel sequences attached as
`output.enforced_scores`. -/
structure DfDict where
  generated_token : List String
  generated_token_idx : List Nat
  generated_score : List ℝ
  leading_token : List String
  leading_token_idx : List Nat
  leading_score : List ℝ

/-- The host loop's generation output: its `sequences` attribute
(one row per returned sequence, prompt + generated suffix). -/
structure GenerateOutput where
  sequences : List (List Nat)

/-- The value `generate_enforced` returns: the host output, with the
`enforced_scores` attribute attached (`some`) only on the instrumented path. -/
structure EnforcedOutput where
  raw : GenerateOutput
  enforced_scores : Option DfDict

/-- A raised Python exception: either an exception raised inside the host
`model.generate` call (identified by a code), or an error raised by this
layer's own post-processing (e.g. `torch.concat` of an empty list). -/
inductive PyException where
  | hostRaised (code : Nat)
  | internalError
  deriving Repr, DecidableEq

/-- The host `model.generate` collaborator: given the model state (with
whatever `_get_logits_warper` is installed), the caller's kwargs, and the
optional `prefix_allowed_tokens_fn`, it either raises or returns its output
together with the score tensors recorded by the installed saver during the
call (empty/ignored when no saver was installed). -/
abbrev GenFn : Type :=
  Model → Kwargs → Option FilterFn → Except PyException (GenerateOutput × List Matrix)

/-- The diagnostic-reduction block of `generate_enforced` (source lines
105–119): builds the six parallel sequences from the recorded scores and
`sequence = output.sequences[0]`.  `tok` is
`tokenizer.convert_ids_to_tokens`. -/
noncomputable def build_df_dict (tok : Nat → String) (recorded : List Matrix)
    (sequence : List Nat) : Option DfDict :=
  match get_generated_scores recorded sequence with
  | none => none
  | some generated_scores =>
    let generated_tokens := pyTailSlice sequence generated_scores.length
    let single_token_strs := generated_tokens.map tok
    match get_leading_scores recorded with
    | none => none
    | some (leading_tokens, leading_scores) =>
      let leading_token_strs := leading_tokens.map tok
      some { generated_token := single_token_strs
             generated_token_idx := generated_tokens
             generated_score := generated_scores
             leading_token := leading_token_strs
             leading_token_idx := leading_tokens
             leading_score := leading_scores }

/-- `generate_enforced(model, tokenizer, character_level_parser, **kwargs)`,
with the constraint filter `filterFn` (the closure
`transformers_filter_allowed_tokens`) and the host loop `gen` abstracted.
Returns the final model state together with the call's result.
On the instrumented path it installs the saver, runs the host call inside
`try/finally` (so the original `_get_logits_warper` is restored on both exit
paths), then reduces the recorded scores and attaches `enforced_scores`; on
the plain path it passes the filter through `prefix_allowed_tokens_fn`. -/
noncomputable def generate_enforced (model : Model) (tok : Nat → String)
    (filterFn : FilterFn) (kwargs : Kwargs) (gen : GenFn) :
    Model × Except PyException EnforcedOutput :=
  if should_run_in_advanced_mode kwargs then
    let (mgr1, model1) :=
      LogitsSaverManager.mkFresh.replace_logits_warper model (some filterFn)
    match gen model1 kwargs none with
    | .error e => (mgr1.unreplace_logits_warper model1, .error e)
    | .ok (output, recorded) =>
      let model2 := mgr1.unreplace_logits_warper model1
      match (output.sequences.head?) with
      | none => (model2, .error .internalError)
      | some sequence =>
        match build_df_dict tok recorded sequence with
        | none => (model2, .error .internalError)
        | some df_dict =>
          (model2, .ok { raw := output, enforced_scores := some df_dict })
  else
    match gen model kwargs (some filterFn) with
    | .error e => (model, .error e)
    | .ok (output, _) => (model, .ok { raw := output, enforced_scores := none })

/-! ### Helper lemmas about the embedded tensor operations -/

theorem pyTailSlice_eq_drop {α : Type} (xs : List α) (k : Nat) (hk : k ≠ 0) :
    pyTailSlice xs k = xs.drop (xs.length - k) := by
  simp [pyTailSlice, hk]

theorem pyTailSlice_length {α : Type} (xs : List α) (k : Nat) (hk : k ≠ 0)
    (hle : k ≤ xs.length) : (pyTailSlice xs k).length = k := by
  rw [pyTailSlice_eq_drop xs k hk, List.length_drop]
  omega

theorem pyTailSlice_subset {α : Type} (xs : List α) (k : Nat) :
    pyTailSlice xs k ⊆ xs := by
  unfold pyTailSlice
  split
  · exact fun a ha => ha
  · exact List.drop_subset _ _

theorem getD_map_of_lt {α β : Type} (f : α → β) (l : List α) (i : Nat) (d : β) (d' : α)
    (hi : i < l.length) : (l.map f).getD i d = f (l.getD i d') := by
  rw [List.getD_eq_getElem _ _ (by simpa using hi), List.getD_eq_getElem _ _ hi]
  simp

theorem getD_mem_of_lt {α : Type} (l : List α) (i : Nat) (d : α) (hi : i < l.length) :
    l.getD i d ∈ l := by
  rw [List.getD_eq_getElem _ _ hi]
  exact List.getElem_mem _

theorem flatten_length_of_singles {α : Type} (ms : List (List α))
    (h : ∀ m ∈ ms, m.length = 1) : ms.flatten.length = ms.length := by
  induction ms with
  | nil => rfl
  | cons m rest ih =>
    simp only [List.flatten_cons, List.length_append, List.length_cons]
    rw [h m (List.mem_cons_self m rest), ih (fun x hx => h x (List.mem_cons_of_mem m hx))]
    omega

theorem torchConcat_eq_flatten (ms : List Matrix) (v : Nat) (hne : ms ≠ [])
    (hw : ∀ r ∈ ms.flatten, r.length = v) :
    torchConcat ms = some ms.flatten := by
  unfold torchConcat
  rw [if_neg hne]
  split
  · next heq => rw [heq]
  · next r rest heq =>
    rw [heq]
    rw [if_pos (List.all_eq_true.mpr fun x hx => by
      have hr := hw r (by rw [heq]; exact List.mem_cons_self r rest)
      have hx' := hw x (by rw [heq]; exact List.mem_cons_of_mem r hx)
      simp [hx', hr])]

theorem mapOption_sound {α β : Type} (f : α → Option β) (dx : α) (dy : β) :
    ∀ (xs : List α), (∀ x ∈ xs, ∃ y, f x = some y) →
      ∃ ys, mapOption f xs = some ys ∧ ys.length = xs.length ∧
        ∀ i < xs.length, f (xs.getD i dx) = some (ys.getD i dy)
  | [], _ => ⟨[], rfl, rfl, fun i hi => absurd hi (Nat.not_lt_zero i)⟩
  | x :: xs, h => by
    obtain ⟨y, hy⟩ := h x (List.mem_cons_self x xs)
    obtain ⟨ys, hys, hlen, hget⟩ :=
      mapOption_sound f dx dy xs (fun a ha => h a (List.mem_cons_of_mem x ha))
    refine ⟨y :: ys, ?_, by simp [hlen], ?_⟩
    · simp [mapOption, hy, hys]
    · intro i hi
      cases i with
      | zero => simpa using hy
      | succ n =>
        simp only [List.getD_cons_succ]
        exact hget n (by simpa using hi)

theorem indexPairs_sound :
    ∀ (probs : List (List ℝ)) (tokens : List Nat),
      tokens.length = probs.length →
      (∀ i < probs.length, tokens.getD i 0 < (probs.getD i []).length) →
      ∃ l, indexPairs probs tokens = some l ∧ l.length = probs.length ∧
        ∀ i < probs.length, l.getD i 0 = (probs.getD i []).getD (tokens.getD i 0) 0
  | [], [], _, _ => ⟨[], rfl, rfl, fun i hi => absurd hi (Nat.not_lt_zero i)⟩
  | [], _ :: _, hlen, _ => by simp at hlen
  | _ :: _, [], hlen, _ => by simp at hlen
  | row :: ps, t :: ts, hlen, hidx => by
    have h0 := hidx 0 (by simp)
    simp only [List.getD_cons_zero] at h0
    obtain ⟨l, hl, hlen', hget⟩ := indexPairs_sound ps ts (by simpa using hlen)
      (fun i hi => by
        have := hidx (i + 1) (by simpa using hi)
        simpa only [List.getD_cons_succ] using this)
    have hsome : row.get? t = some (row.getD t 0) := by
      rw [List.getD_eq_getElem _ _ h0]
      exact List.get?_eq_get h0
    refine ⟨row.getD t 0 :: l, ?_, by simp [hlen'], ?_⟩
    · simp only [indexPairs]
      rw [hsome, hl]
    · intro i hi
      cases i with
      | zero => simp
      | succ n =>
        simp only [List.getD_cons_succ]
        exact hget n (by simpa using hi)

theorem argmaxIdx_sound :
    ∀ (s : List ℚ), s ≠ [] →
      ∃ j, argmaxIdx s = some j ∧ j < s.length ∧ ∀ y ∈ s, y ≤ s.getD j 0
  | [], h => absurd rfl h
  | x :: xs, _ => by
    by_cases hnil : xs = []
    · subst hnil
      refine ⟨0, by simp [argmaxIdx], by simp, ?_⟩
      intro y hy
      simp only [List.mem_singleton] at hy
      simp [hy]
    · obtain ⟨j, hj, hjlt, hmax⟩ := argmaxIdx_sound xs hnil
      by_cases hcmp : x < xs.getD j 0
      · refine ⟨j + 1, ?_, by simp only [List.length_cons]; omega, ?_⟩
        · simp only [argmaxIdx]
          rw [hj]
          show (if x < xs.getD j 0 then some (j + 1) else some 0) = some (j + 1)
          rw [if_pos hcmp]
        · intro y hy
          simp only [List.getD_cons_succ]
          rcases List.mem_cons.mp hy with rfl | hmem
          · exact le_of_lt hcmp
          · exact hmax y hmem
      · refine ⟨0, ?_, by simp, ?_⟩
        · simp only [argmaxIdx]
          rw [hj]
          show (if x < xs.getD j 0 then some (j + 1) else some 0) = some 0
          rw [if_neg hcmp]
        · intro y hy
          simp only [List.getD_cons_zero]
          rcases List.mem_cons.mp hy with rfl | hmem
          · exact le_refl y
          · exact le_trans (hmax y hmem) (not_lt.mp hcmp)

theorem expSum_pos (s : List ℚ) (h : s ≠ []) : 0 < expSum s := by
  apply List.sum_pos
  · intro x hx
    obtain ⟨a, _, rfl⟩ := List.mem_map.mp hx
    exact Real.exp_pos _
  · intro hmap
    apply h
    simpa using hmap

theorem softmaxRow_length (s : List ℚ) : (softmaxRow s).length = s.length := by
  simp [softmaxRow]

theorem softmaxRow_getD (s : List ℚ) (i : Nat) (hi : i < s.length) :
    (softmaxRow s).getD i 0 = Real.exp ((s.getD i 0 : ℚ) : ℝ) / expSum s := by
  unfold softmaxRow
  exact getD_map_of_lt _ s i 0 0 hi

theorem softmaxRow_le_iff (s : List ℚ) (hs : s ≠ []) (a b : ℚ) :
    Real.exp ((a : ℚ) : ℝ) / expSum s ≤ Real.exp ((b : ℚ) : ℝ) / expSum s ↔ a ≤ b := by
  rw [div_le_div_iff_of_pos_right (expSum_pos s hs), Real.exp_le_exp, Rat.cast_le]

/-! ### Success and shape lemmas for the diagnostic reducer -/

theorem widths_of_wellformed (recorded : List Matrix) (v : Nat)
    (hm : ∀ m ∈ recorded, m.length = 1 ∧ ∀ r ∈ m, r.length = v) :
    ∀ r ∈ recorded.flatten, r.length = v := by
  intro r hr
  obtain ⟨m, hmmem, hrm⟩ := List.mem_flatten.mp hr
  exact (hm m hmmem).2 r hrm

theorem flatten_length_of_wellformed (recorded : List Matrix) (v : Nat)
    (hm : ∀ m ∈ recorded, m.length = 1 ∧ ∀ r ∈ m, r.length = v) :
    recorded.flatten.length = recorded.length :=
  flatten_length_of_singles recorded (fun m hmem => (hm m hmem).1)

theorem rows_nonempty_of_wellformed (recorded : List Matrix) (v : Nat)
    (hm : ∀ m ∈ recorded, m.length = 1 ∧ ∀ r ∈ m, r.length = v) (hv : 0 < v) :
    ∀ r ∈ recorded.flatten, r ≠ [] := by
  intro r hr hremp
  have hlen := widths_of_wellformed recorded v hm r hr
  rw [hremp] at hlen
  simp only [List.length_nil] at hlen
  omega

theorem get_generated_scores_sound (recorded : List Matrix) (seq : List Nat) (v : Nat)
    (hne : recorded ≠ [])
    (hm : ∀ m ∈ recorded, m.length = 1 ∧ ∀ r ∈ m, r.length = v)
    (hv : 0 < v)
    (hn : recorded.length ≤ seq.length)
    (ht : ∀ t ∈ seq, t < v) :
    ∃ gs, get_generated_scores recorded seq = some gs ∧
      gs.length = recorded.length ∧
      ∀ i < recorded.length,
        gs.getD i 0 = (softmaxRow (recorded.flatten.getD i [])).getD
          ((seq.drop (seq.length - recorded.length)).getD i 0) 0 := by
  have hw := widths_of_wellformed recorded v hm
  have hR : recorded.flatten.length = recorded.length :=
    flatten_length_of_wellformed recorded v hm
  have hkne : recorded.length ≠ 0 := fun h0 => hne (List.length_eq_zero.mp h0)
  have hconc : torchConcat recorded = some recorded.flatten :=
    torchConcat_eq_flatten recorded v hne hw
  have hrel : pyTailSlice seq recorded.length = seq.drop (seq.length - recorded.length) :=
    pyTailSlice_eq_drop seq recorded.length hkne
  have hrlen : (pyTailSlice seq recorded.length).length = recorded.length :=
    pyTailSlice_length seq recorded.length hkne hn
  have hplen : (softmaxMatrix recorded.flatten).length = recorded.length := by
    unfold softmaxMatrix
    rw [List.length_map]
    exact hR
  obtain ⟨gs, hgs, hgslen, hgspt⟩ := indexPairs_sound (softmaxMatrix recorded.flatten)
    (pyTailSlice seq recorded.length)
    (by rw [hrlen, hplen])
    (by
      intro i hi
      rw [hplen] at hi
      have hrow : (softmaxMatrix recorded.flatten).getD i [] =
          softmaxRow (recorded.flatten.getD i []) :=
        getD_map_of_lt softmaxRow recorded.flatten i [] [] (by rw [hR]; exact hi)
      rw [hrow, softmaxRow_length]
      have hrowmem : recorded.flatten.getD i [] ∈ recorded.flatten :=
        getD_mem_of_lt _ i [] (by rw [hR]; exact hi)
      rw [hw _ hrowmem]
      have htmem : (pyTailSlice seq recorded.length).getD i 0 ∈ seq :=
        pyTailSlice_subset seq recorded.length
          (getD_mem_of_lt _ i 0 (by rw [hrlen]; exact hi))
      exact ht _ htmem)
  refine ⟨gs, ?_, by rw [hgslen, hplen], ?_⟩
  · unfold get_generated_scores
    rw [hconc]
    show torchIndexRows (softmaxMatrix recorded.flatten) (pyTailSlice seq recorded.length)
      = some gs
    unfold torchIndexRows
    rw [if_pos (by rw [hrlen, hplen])]
    exact hgs
  · intro i hi
    have hpt := hgspt i (by rw [hplen]; exact hi)
    unfold softmaxMatrix at hpt
    rw [getD_map_of_lt softmaxRow recorded.flatten i [] [] (by rw [hR]; exact hi)] at hpt
    rw [hrel] at hpt
    exact hpt

theorem get_leading_scores_sound (recorded : List Matrix) (v : Nat)
    (hne : recorded ≠ [])
    (hm : ∀ m ∈ recorded, m.length = 1 ∧ ∀ r ∈ m, r.length = v)
    (hv : 0 < v) :
    ∃ bt ls, get_leading_scores recorded = some (bt, ls) ∧
      bt.length = recorded.length ∧ ls.length = recorded.length ∧
      ∀ i < recorded.length,
        argmaxIdx (recorded.flatten.getD i []) = some (bt.getD i 0) ∧
        ls.getD i 0 = (softmaxRow (recorded.flatten.getD i [])).getD (bt.getD i 0) 0 := by
  have hw := widths_of_wellformed recorded v hm
  have hR : recorded.flatten.length = recorded.length :=
    flatten_length_of_wellformed recorded v hm
  have hconc : torchConcat recorded = some recorded.flatten :=
    torchConcat_eq_flatten recorded v hne hw
  have hrowne := rows_nonempty_of_wellformed recorded v hm hv
  have hplen : (softmaxMatrix recorded.flatten).length = recorded.length := by
    unfold softmaxMatrix
    rw [List.length_map]
    exact hR
  obtain ⟨bt, hbt, hbtlen, hbtpt⟩ := mapOption_sound argmaxIdx [] 0 recorded.flatten
    (fun r hr => (argmaxIdx_sound r (hrowne r hr)).imp (fun j hj => hj.1))
  obtain ⟨ls, hls, hlslen, hlspt⟩ := indexPairs_sound (softmaxMatrix recorded.flatten) bt
    (by rw [hbtlen, hplen, hR])
    (by
      intro i hi
      rw [hplen] at hi
      have hrow : (softmaxMatrix recorded.flatten).getD i [] =
          softmaxRow (recorded.flatten.getD i []) :=
        getD_map_of_lt softmaxRow recorded.flatten i [] [] (by rw [hR]; exact hi)
      rw [hrow, softmaxRow_length]
      have harg := hbtpt i (by rw [hR]; exact hi)
      obtain ⟨j, hj, hjlt, _⟩ := argmaxIdx_sound (recorded.flatten.getD i [])
        (hrowne _ (getD_mem_of_lt _ i [] (by rw [hR]; exact hi)))
      rw [hj] at harg
      obtain rfl : j = bt.getD i 0 := Option.some_injective _ harg
      exact hjlt)
  refine ⟨bt, ls, ?_, by rw [hbtlen, hR], by rw [hlslen, hplen], ?_⟩
  · unfold get_leading_scores
    rw [hconc]
    show (match mapOption argmaxIdx recorded.flatten with
      | none => none
      | some best_tokens =>
        match torchIndexRows (softmaxMatrix recorded.flatten) best_tokens with
        | none => none
        | some token_probs => some (best_tokens, token_probs)) = some (bt, ls)
    rw [hbt]
    have htir : torchIndexRows (softmaxMatrix recorded.flatten) bt = some ls := by
      unfold torchIndexRows
      rw [if_pos (by rw [hbtlen, hplen, hR])]
      exact hls
    show (match torchIndexRows (softmaxMatrix recorded.flatten) bt with
      | none => none
      | some token_probs => some (bt, token_probs)) = some (bt, ls)
    rw [htir]
  · intro i hi
    have harg := hbtpt i (by rw [hR]; exact hi)
    have hpt := hlspt i (by rw [hplen]; exact hi)
    unfold softmaxMatrix at hpt
    rw [getD_map_of_lt softmaxRow recorded.flatten i [] [] (by rw [hR]; exact hi)] at hpt
    exact ⟨harg, hpt⟩

theorem build_df_dict_sound (tok : Nat → String) (recorded : List Matrix)
    (seq : List Nat) (v : Nat)
    (hne : recorded ≠ [])
    (hm : ∀ m ∈ recorded, m.length = 1 ∧ ∀ r ∈ m, r.length = v)
    (hv : 0 < v)
    (hn : recorded.length ≤ seq.length)
    (ht : ∀ t ∈ seq, t < v) :
    ∃ d, build_df_dict tok recorded seq = some d ∧
      d.generated_token.length = recorded.length ∧
      d.generated_token_idx.length = recorded.length ∧
      d.generated_score.length = recorded.length ∧
      d.leading_token.length = recorded.length ∧
      d.leading_token_idx.length = recorded.length ∧
      d.leading_score.length = recorded.length ∧
      d.generated_token_idx = seq.drop (seq.length - recorded.length) := by
  obtain ⟨gs, hgs, hgslen, _⟩ := get_generated_scores_sound recorded seq v hne hm hv hn ht
  obtain ⟨bt, ls, hls, hbtlen, hlslen, _⟩ := get_leading_scores_sound recorded v hne hm hv
  have hkne : recorded.length ≠ 0 := fun h0 => hne (List.length_eq_zero.mp h0)
  have hgen_tokens : pyTailSlice seq gs.length = seq.drop (seq.length - recorded.length) := by
    rw [hgslen]
    exact pyTailSlice_eq_drop seq recorded.length hkne
  have hgtlen : (pyTailSlice seq gs.length).length = recorded.length := by
    rw [hgslen]
    exact pyTailSlice_length seq recorded.length hkne hn
  refine ⟨{ generated_token := (pyTailSlice seq gs.length).map tok
            generated_token_idx := pyTailSlice seq gs.length
            generated_score := gs
            leading_token := bt.map tok
            leading_token_idx := bt
            leading_score := ls }, ?_, ?_, ?_, ?_, ?_, ?_, ?_, ?_⟩
  · unfold build_df_dict
    rw [hgs, hls]
  · simp only [List.length_map]
    exact hgtlen
  · exact hgtlen
  · exact hgslen
  · simp only [List.length_map]
    exact hbtlen
  · exact hbtlen
  · exact hlslen
  · exact hgen_tokens

/-! ### Shape of `generate_enforced` on each branch of the mode selector -/

theorem generate_enforced_advanced_eq (model : Model) (tok : Nat → String)
    (filterFn : FilterFn) (kwargs : Kwargs) (gen : GenFn)
    (hadv : should_run_in_advanced_mode kwargs = true) :
    generate_enforced model tok filterFn kwargs gen =
      (match gen ⟨some (Hook.patched model.get_logits_warper (some filterFn))⟩ kwargs none with
      | .error e => (⟨model.get_logits_warper⟩, .error e)
      | .ok (output, recorded) =>
        match output.sequences.head? with
        | none => (⟨model.get_logits_warper⟩, .error .internalError)
        | some sequence =>
          match build_df_dict tok recorded sequence with
          | none => (⟨model.get_logits_warper⟩, .error .internalError)
          | some df_dict =>
            (⟨model.get_logits_warper⟩,
             .ok { raw := output, enforced_scores := some df_dict })) := by
  unfold generate_enforced
  rw [if_pos hadv]
  rfl

theorem generate_enforced_plain_eq (model : Model) (tok : Nat → String)
    (filterFn : FilterFn) (kwargs : Kwargs) (gen : GenFn)
    (hnadv : should_run_in_advanced_mode kwargs = false) :
    generate_enforced model tok filterFn kwargs gen =
      (match gen model kwargs (some filterFn) with
      | .error e => (model, .error e)
      | .ok (output, _) => (model, .ok { raw := output, enforced_scores := none })) := by
  unfold generate_enforced
  rw [hnadv]
  rfl

/-! ### The claims -/

/-- C1: the Score Recorder is transparent: `LogitsSaverWarper.__call__` returns
exactly the scores tensor it was given, and its only effect is to append one
independent copy of that tensor to its internal ordered list `self.scores`. -/
theorem claim_C1_recorder_transparent (w : LogitsSaverWarper)
    (input_ids : List (List Nat)) (scores : Matrix) :
    (w.call input_ids scores).2 = scores ∧
    (w.call input_ids scores).1.scores = w.scores ++ [scores] :=
  ⟨rfl, rfl⟩

/-- C2: in instrumented (advanced) mode the model's original
`_get_logits_warper` value is restored on every exit path of the wrapped
`model.generate` call, and when the host call raises, the very same exception
propagates to the caller (neither suppressed nor wrapped). -/
theorem claim_C2_guaranteed_release (model : Model) (tok : Nat → String)
    (filterFn : FilterFn) (kwargs : Kwargs) (gen : GenFn)
    (hadv : should_run_in_advanced_mode kwargs = true) :
    (generate_enforced model tok filterFn kwargs gen).1.get_logits_warper
      = model.get_logits_warper ∧
    ∀ e, gen ⟨some (Hook.patched model.get_logits_warper (some filterFn))⟩ kwargs none
        = .error e →
      (generate_enforced model tok filterFn kwargs gen).2 = .error e := by
  rw [generate_enforced_advanced_eq model tok filterFn kwargs gen hadv]
  constructor
  · cases hg : gen ⟨some (Hook.patched model.get_logits_warper (some filterFn))⟩ kwargs none with
    | error e => rfl
    | ok pr =>
      obtain ⟨output, recorded⟩ := pr
      cases hh : output.sequences.head? with
      | none => simp only [hh]
      | some sequence =>
        cases hd : build_df_dict tok recorded sequence with
        | none => simp only [hh, hd]
        | some d => simp only [hh, hd]
  · intro e he
    rw [he]

/-- C2 witness: a concrete instrumented call whose host loop raises exception
code 7; the hook is restored and the same exception is re-raised. -/
theorem claim_C2_guaranteed_release_witness :
    (generate_enforced ⟨some (Hook.original 0)⟩ (fun _ => "") (fun _ _ => [])
        ⟨[[0]], none, some true, some true⟩
        (fun _ _ _ => .error (.hostRaised 7))).1.get_logits_warper
      = some (Hook.original 0) ∧
    (generate_enforced ⟨some (Hook.original 0)⟩ (fun _ => "") (fun _ _ => [])
        ⟨[[0]], none, some true, some true⟩
        (fun _ _ _ => .error (.hostRaised 7))).2 = .error (.hostRaised 7) := by
  have h := claim_C2_guaranteed_release ⟨some (Hook.original 0)⟩ (fun _ => "")
    (fun _ _ => []) ⟨[[0]], none, some true, some true⟩
    (fun _ _ _ => .error (.hostRaised 7)) (by decide)
  exact ⟨h.1, h.2 (.hostRaised 7) rfl⟩

/-- C3 counterexample: the claim demands advanced mode only when `input_ids`
has exactly one row, but an `input_ids` tensor with zero rows (together with
diagnostics requested and default beams) also selects the advanced path,
since the code only tests `shape[0] > 1`. -/
theorem claim_C3_counterexample :
    should_run_in_advanced_mode ⟨[], none, some true, some true⟩ = true ∧
    (⟨[], none, some true, some true⟩ : Kwargs).input_ids.length ≠ 1 := by
  decide

/-- C3 amended: `generate_enforced` takes the instrumented path iff
`input_ids` has at most one row, `num_beams` (defaulting to 1) is at most 1,
`return_dict_in_generate` is truthy and `output_scores` is truthy. -/
theorem claim_C3_mode_selection (kwargs : Kwargs) :
    should_run_in_advanced_mode kwargs = true ↔
      kwargs.input_ids.length ≤ 1 ∧ kwargs.num_beams.getD 1 ≤ 1 ∧
      kwargs.return_dict_in_generate.getD false = true ∧
      kwargs.output_scores.getD false = true := by
  unfold should_run_in_advanced_mode
  simp only [Bool.and_eq_true, Bool.not_eq_true', Bool.or_eq_false_iff,
    decide_eq_false_iff_not, Nat.not_lt]
  tauto

/-- C6 counterexample: with zero recorded step score vectors the reducer does
not return empty sequences: `torch.concat` of the empty scores list raises
(modelled by `none`), both in `get_generated_scores` and in the diagnostic
table construction. -/
theorem claim_C6_counterexample :
    get_generated_scores ([] : List Matrix) [0, 1] = none ∧
    build_df_dict (fun _ => "") ([] : List Matrix) [0, 1] = none :=
  ⟨rfl, rfl⟩

/-- C6 amended: when the number of recorded step score vectors is 0, the
reducer raises (concatenation of an empty tensor list) instead of returning
empty sequences, for every token sequence. -/
theorem claim_C6_zero_steps_raises (tok : Nat → String) (token_sequence : List Nat) :
    get_generated_scores [] token_sequence = none ∧
    get_leading_scores [] = none ∧
    build_df_dict tok [] token_sequence = none :=
  ⟨rfl, rfl, rfl⟩

/-- C8: every invocation of the installed replacement resolution function
creates a fresh Score Recorder with an empty scores list, inserts it at
position 0 of the chain returned by the original resolution function and,
when a filter function was supplied, inserts the constraint-restriction
processor (with `num_beams = 1`) at position 1, directly after the recorder;
without a filter function only the recorder is inserted. -/
theorem claim_C8_chain_installation {Cfg : Type} (old_warper : Cfg → List Proc)
    (f : FilterFn) (generation_config : Cfg) :
    new_logits_warper old_warper (some f) generation_config
      = Proc.saver ⟨[]⟩ :: Proc.constrainedProcessor f 1
          :: old_warper generation_config ∧
    new_logits_warper old_warper none generation_config
      = Proc.saver ⟨[]⟩ :: old_warper generation_config :=
  ⟨rfl, rfl⟩

/-- C10: calling `unreplace_logits_warper` on a freshly constructed
`LogitsSaverManager` (on which `replace_logits_warper` was never called)
assigns `None` to the model's `_get_logits_warper` attribute — for every
prior value of that attribute — destroying rather than restoring it. -/
theorem claim_C10_unreplace_destroys (model : Model) :
    (LogitsSaverManager.mkFresh.unreplace_logits_warper model).get_logits_warper
      = none :=
  rfl

/-- C4: alignment of the diagnostic table: for a successful instrumented
generation that recorded `k` step score vectors, the artifact attached as
`enforced_scores` has six sequences of length exactly `k`, and its
`generated_token_idx` equals the last-`k` suffix of the generated token
sequence, elementwise and in order. -/
theorem claim_C4_alignment (model : Model) (tok : Nat → String) (filterFn : FilterFn)
    (kwargs : Kwargs) (gen : GenFn) (output : GenerateOutput)
    (recorded : List Matrix) (seq : List Nat) (v : Nat)
    (hadv : should_run_in_advanced_mode kwargs = true)
    (hgen : gen ⟨some (Hook.patched model.get_logits_warper (some filterFn))⟩ kwargs none
      = .ok (output, recorded))
    (hhead : output.sequences.head? = some seq)
    (hne : recorded ≠ [])
    (hm : ∀ m ∈ recorded, m.length = 1 ∧ ∀ r ∈ m, r.length = v)
    (hv : 0 < v)
    (hn : recorded.length ≤ seq.length)
    (ht : ∀ t ∈ seq, t < v) :
    ∃ d, (generate_enforced model tok filterFn kwargs gen).2
        = .ok { raw := output, enforced_scores := some d } ∧
      d.generated_token.length = recorded.length ∧
      d.generated_token_idx.length = recorded.length ∧
      d.generated_score.length = recorded.length ∧
      d.leading_token.length = recorded.length ∧
      d.leading_token_idx.length = recorded.length ∧
      d.leading_score.length = recorded.length ∧
      d.generated_token_idx = seq.drop (seq.length - recorded.length) := by
  obtain ⟨d, hd, p1, p2, p3, p4, p5, p6, p7⟩ :=
    build_df_dict_sound tok recorded seq v hne hm hv hn ht
  refine ⟨d, ?_, p1, p2, p3, p4, p5, p6, p7⟩
  rw [generate_enforced_advanced_eq model tok filterFn kwargs gen hadv]
  simp only [hgen, hhead, hd]

/-- C4 witness: one recorded step over a two-token vocabulary; the artifact's
sequences have length 1 and `generated_token_idx` is the final token. -/
theorem claim_C4_alignment_witness :
    ∃ d, (generate_enforced ⟨some (Hook.original 0)⟩ (fun _ => "") (fun _ _ => [])
        ⟨[[0]], none, some true, some true⟩
        (fun _ _ _ => .ok (⟨[[0, 1]]⟩, [[[(0 : ℚ), 1]]]))).2
      = .ok { raw := ⟨[[0, 1]]⟩, enforced_scores := some d } ∧
      d.generated_token.length = 1 ∧
      d.generated_token_idx.length = 1 ∧
      d.generated_score.length = 1 ∧
      d.leading_token.length = 1 ∧
      d.leading_token_idx.length = 1 ∧
      d.leading_score.length = 1 ∧
      d.generated_token_idx = [1] := by
  obtain ⟨d, h1, h2, h3, h4, h5, h6, h7, h8⟩ := claim_C4_alignment
    ⟨some (Hook.original 0)⟩ (fun _ => "") (fun _ _ => [])
    ⟨[[0]], none, some true, some true⟩
    (fun _ _ _ => .ok (⟨[[0, 1]]⟩, [[[(0 : ℚ), 1]]]))
    ⟨[[0, 1]]⟩ [[[(0 : ℚ), 1]]] [0, 1] 2
    (by decide) rfl rfl (by decide) (by decide) (by decide) (by decide) (by decide)
  exact ⟨d, h1, h2, h3, h4, h5, h6, h7, h8⟩

/-- C5: probability ordering: at every recorded step the probability reported
by `get_leading_scores` (softmax probability of the step's argmax token) is at
least the probability reported by `get_generated_scores` for the aligned
generated token, with equality exactly when the generated token attains the
maximum probability of that step's softmax distribution. -/
theorem claim_C5_probability_ordering (recorded : List Matrix) (seq : List Nat)
    (v i : Nat)
    (hne : recorded ≠ [])
    (hm : ∀ m ∈ recorded, m.length = 1 ∧ ∀ r ∈ m, r.length = v)
    (hv : 0 < v)
    (hn : recorded.length ≤ seq.length)
    (ht : ∀ t ∈ seq, t < v)
    (hi : i < recorded.length) :
    ∃ gs bt ls,
      get_generated_scores recorded seq = some gs ∧
      get_leading_scores recorded = some (bt, ls) ∧
      gs.getD i 0 ≤ ls.getD i 0 ∧
      (ls.getD i 0 = gs.getD i 0 ↔
        ∀ p ∈ softmaxRow (recorded.flatten.getD i []), p ≤ gs.getD i 0) := by
  obtain ⟨gs, hgs, hgslen, hgspt⟩ :=
    get_generated_scores_sound recorded seq v hne hm hv hn ht
  obtain ⟨bt, ls, hls, hbtlen, hlslen, hlspt⟩ :=
    get_leading_scores_sound recorded v hne hm hv
  have hR := flatten_length_of_wellformed recorded v hm
  have hrowmem : recorded.flatten.getD i [] ∈ recorded.flatten :=
    getD_mem_of_lt _ i [] (by rw [hR]; exact hi)
  have hrowlen : (recorded.flatten.getD i []).length = v :=
    widths_of_wellformed recorded v hm _ hrowmem
  have hrowne : recorded.flatten.getD i [] ≠ [] :=
    rows_nonempty_of_wellformed recorded v hm hv _ hrowmem
  obtain ⟨harg, hlsv⟩ := hlspt i hi
  have hgsv := hgspt i hi
  have hkne : recorded.length ≠ 0 := fun h0 => hne (List.length_eq_zero.mp h0)
  have hdl : (seq.drop (seq.length - recorded.length)).length = recorded.length := by
    rw [List.length_drop]
    omega
  have htlt : (seq.drop (seq.length - recorded.length)).getD i 0 < v :=
    ht _ (List.drop_subset _ _ (getD_mem_of_lt _ i 0 (by rw [hdl]; exact hi)))
  obtain ⟨j, hj, hjlt, hjmax⟩ := argmaxIdx_sound (recorded.flatten.getD i []) hrowne
  rw [hj] at harg
  have hjbt : j = bt.getD i 0 := Option.some_inj.mp harg
  rw [← hjbt] at hlsv
  have hsm_t := softmaxRow_getD (recorded.flatten.getD i [])
    ((seq.drop (seq.length - recorded.length)).getD i 0) (by rw [hrowlen]; exact htlt)
  have hsm_j := softmaxRow_getD (recorded.flatten.getD i []) j hjlt
  have hle : gs.getD i 0 ≤ ls.getD i 0 := by
    rw [hgsv, hlsv, hsm_t, hsm_j]
    exact (softmaxRow_le_iff _ hrowne _ _).mpr
      (hjmax _ (getD_mem_of_lt _ _ 0 (by rw [hrowlen]; exact htlt)))
  refine ⟨gs, bt, ls, hgs, hls, hle, ?_, ?_⟩
  · intro hEq p hp
    unfold softmaxRow at hp
    obtain ⟨a, ha, hpa⟩ := List.mem_map.mp hp
    rw [← hpa, ← hEq, hlsv, hsm_j]
    exact (softmaxRow_le_iff _ hrowne _ _).mpr (hjmax a ha)
  · intro hall
    have hmem : (softmaxRow (recorded.flatten.getD i [])).getD j 0
        ∈ softmaxRow (recorded.flatten.getD i []) :=
      getD_mem_of_lt _ j 0 (by rw [softmaxRow_length]; exact hjlt)
    rw [hlsv] at hle ⊢
    exact le_antisymm (hall _ hmem) hle

/-- C5 witness: one recorded step with scores `[0, 1]` and generated token 1
(which is the argmax), over a two-token vocabulary. -/
theorem claim_C5_probability_ordering_witness :
    ∃ gs bt ls,
      get_generated_scores [[[(0 : ℚ), 1]]] [1] = some gs ∧
      get_leading_scores [[[(0 : ℚ), 1]]] = some (bt, ls) ∧
      gs.getD 0 0 ≤ ls.getD 0 0 ∧
      (ls.getD 0 0 = gs.getD 0 0 ↔
        ∀ p ∈ softmaxRow (([[[(0 : ℚ), 1]]] : List Matrix).flatten.getD 0 []),
          p ≤ gs.getD 0 0) :=
  claim_C5_probability_ordering [[[(0 : ℚ), 1]]] [1] 2 0
    (by decide) (by decide) (by decide) (by decide) (by decide) (by decide)

/-- C7: fallback correctness: when the call's shape disqualifies instrumented
mode (more than one input row or more than one beam), the hook is never
replaced (the final model state is the initial one, and the host loop is
invoked on the unmodified model), the constraint filter is passed through the
standard `prefix_allowed_tokens_fn` restriction hook, the returned result
carries no `enforced_scores` artifact, and any error is the host loop's own,
propagated unchanged. -/
theorem claim_C7_fallback (model : Model) (tok : Nat → String) (filterFn : FilterFn)
    (kwargs : Kwargs) (gen : GenFn)
    (hshape : kwargs.input_ids.length > 1 ∨ kwargs.num_beams.getD 1 > 1) :
    (generate_enforced model tok filterFn kwargs gen).1 = model ∧
    (∀ e, gen model kwargs (some filterFn) = .error e →
      (generate_enforced model tok filterFn kwargs gen).2 = .error e) ∧
    (∀ output recorded, gen model kwargs (some filterFn) = .ok (output, recorded) →
      (generate_enforced model tok filterFn kwargs gen).2
        = .ok { raw := output, enforced_scores := none }) := by
  have hnadv : should_run_in_advanced_mode kwargs = false := by
    unfold should_run_in_advanced_mode
    rcases hshape with h | h
    · rw [decide_eq_true h]
      simp
    · rw [decide_eq_true h]
      simp
  refine ⟨?_, ?_, ?_⟩
  · rw [generate_enforced_plain_eq model tok filterFn kwargs gen hnadv]
    cases hg : gen model kwargs (some filterFn) with
    | error e => rfl
    | ok pr =>
      obtain ⟨output, recorded⟩ := pr
      rfl
  · intro e he
    rw [generate_enforced_plain_eq model tok filterFn kwargs gen hnadv]
    simp only [he]
  · intro output recorded hok
    rw [generate_enforced_plain_eq model tok filterFn kwargs gen hnadv]
    simp only [hok]

/-- C7 witness: two input rows with diagnostics requested: the plain path is
taken, the model state is untouched, and no artifact is attached. -/
theorem claim_C7_fallback_witness :
    (generate_enforced ⟨some (Hook.original 0)⟩ (fun _ => "") (fun _ _ => [])
        ⟨[[0], [1]], none, some true, some true⟩
        (fun _ _ _ => .ok (⟨[[5]]⟩, []))).1 = ⟨some (Hook.original 0)⟩ ∧
    (generate_enforced ⟨some (Hook.original 0)⟩ (fun _ => "") (fun _ _ => [])
        ⟨[[0], [1]], none, some true, some true⟩
        (fun _ _ _ => .ok (⟨[[5]]⟩, []))).2
      = .ok { raw := ⟨[[5]]⟩, enforced_scores := none } := by
  have h := claim_C7_fallback ⟨some (Hook.original 0)⟩ (fun _ => "") (fun _ _ => [])
    ⟨[[0], [1]], none, some true, some true⟩ (fun _ _ _ => .ok (⟨[[5]]⟩, []))
    (by decide)
  exact ⟨h.1, h.2.2 ⟨[[5]]⟩ [] rfl⟩

/-- C9 counterexample: with two recorded steps and a generated token sequence
of length one (recorded-step count exceeds the sequence length), the reduction
does not fail on any assertion: it silently succeeds, broadcasting the single
token and returning two probabilities. -/
theorem claim_C9_counterexample :
    (get_generated_scores [[[(0 : ℚ)]], [[(0 : ℚ)]]] [0]).isSome = true ∧
    ((get_generated_scores [[[(0 : ℚ)]], [[(0 : ℚ)]]] [0]).getD []).length = 2 ∧
    ([0] : List Nat).length < ([[[(0 : ℚ)]], [[(0 : ℚ)]]] : List Matrix).length :=
  ⟨rfl, rfl, by decide⟩

/-- C9 amended: the reduction step is not defended by any assertion: whenever
the token sequence has length 1 and at least two steps were recorded, the
recorded-step count exceeds the generated-sequence length and yet
`get_generated_scores` proceeds silently, returning one probability per
recorded step. -/
theorem claim_C9_no_assertion (recorded : List Matrix) (t v : Nat)
    (hne : recorded ≠ [])
    (hm : ∀ m ∈ recorded, m.length = 1 ∧ ∀ r ∈ m, r.length = v)
    (hv : 0 < v)
    (ht : t < v)
    (hk : 2 ≤ recorded.length) :
    ∃ gs, get_generated_scores recorded [t] = some gs ∧
      gs.length = recorded.length := by
  have hw := widths_of_wellformed recorded v hm
  have hR := flatten_length_of_wellformed recorded v hm
  have hconc := torchConcat_eq_flatten recorded v hne hw
  have hkne : recorded.length ≠ 0 := by omega
  have hplen : (softmaxMatrix recorded.flatten).length = recorded.length := by
    unfold softmaxMatrix
    rw [List.length_map]
    exact hR
  have hrel : pyTailSlice [t] recorded.length = [t] := by
    rw [pyTailSlice_eq_drop _ _ hkne]
    have h10 : ([t] : List Nat).length - recorded.length = 0 := by
      simp only [List.length_singleton]
      omega
    rw [h10]
    exact List.drop_zero _
  obtain ⟨gs, hgs, hgslen, _⟩ := mapOption_sound (fun row => row.get? t) [] 0
    (softmaxMatrix recorded.flatten)
    (fun row hrow => by
      unfold softmaxMatrix at hrow
      obtain ⟨r, hr, hrw⟩ := List.mem_map.mp hrow
      have hlt : t < row.length := by
        rw [← hrw, softmaxRow_length, hw r hr]
        exact ht
      exact ⟨_, List.get?_eq_get hlt⟩)
  refine ⟨gs, ?_, by rw [hgslen, hplen]⟩
  unfold get_generated_scores
  rw [hconc]
  show torchIndexRows (softmaxMatrix recorded.flatten) (pyTailSlice [t] recorded.length)
    = some gs
  rw [hrel]
  unfold torchIndexRows
  rw [if_neg (by
    rw [List.length_singleton, hplen]
    omega)]
  rw [if_pos (List.length_singleton t)]
  exact hgs

/-- C9 witness: two recorded steps over a two-token vocabulary, token
sequence `[1]`: the reduction silently returns two probabilities. -/
theorem claim_C9_no_assertion_witness :
    ∃ gs, get_generated_scores [[[(0 : ℚ), 1]], [[(2 : ℚ), 3]]] [1] = some gs ∧
      gs.length = ([[[(0 : ℚ), 1]], [[(2 : ℚ), 3]]] : List Matrix).length :=
  claim_C9_no_assertion [[[(0 : ℚ), 1]], [[(2 : ℚ), 3]]] 1 2
    (by decide) (by decide) (by decide) (by decide) (by decide)

end TransformerEnforcer
